import Mathlib

/-!
Verification development for the playlist batch downloader
(src/playlist_downloader.py). The definitions below are a shallow
embedding of the program's core logic:

* `sanitize_filename` embeds `YouTubePlaylistDownloader.sanitize_filename`
  (lines 79-84): remove the characters banned on common filesystems,
  collapse whitespace runs to a single space, strip leading/trailing
  whitespace, truncate to 255 characters.
* `scrollStep` / `scrollLoop` embed the incremental-scroll discovery loop of
  `extract_playlist_urls` (lines 121-157), as a state machine fed the
  sequence of rendered-entry counts observed after each scroll.
* `download_video_with_ytdlp` embeds the fetch component (lines 288-322):
  filenames are modelled as lists of characters, the filesystem as the list
  of file names present in the output folder, and the external download
  capability as an oracle value.
* `applySort`, `assignFrom`, `runLoopGo` and `download_playlist` embed the
  per-playlist orchestration of `download_playlist` (lines 324-474), with
  the per-video fetch outcomes supplied by an oracle function.
* `batchGo` / `download_multiple_playlists` embed the batch orchestration of
  `download_multiple_playlists` (lines 476-577), with each URL's
  per-playlist run outcome supplied as a value (`Except.error` models a
  propagated exception, `Except.ok` the returned value).
-/

/-- Characters removed by the first regex of `sanitize_filename`
(line 82, the class of nine invalid filename characters). -/
def invalidChar (c : Char) : Bool :=
  c == '\\' || c == '/' || c == ':' || c == '*' || c == '?' ||
  c == '\"' || c == '<' || c == '>' || c == '|'

/-- Whitespace class of the second regex of `sanitize_filename` (line 83)
and of the trailing call to `strip`: the ASCII whitespace characters
space, tab, newline, carriage return, vertical tab and form feed. -/
def isPySpace (c : Char) : Bool :=
  c == ' ' || c == '\t' || c == '\n' || c == '\r' ||
  c == Char.ofNat 11 || c == Char.ofNat 12

/-- Line 82: remove all invalid filename characters. -/
def removeInvalid (l : List Char) : List Char :=
  l.filter (fun c => !invalidChar c)

/-- Worker collapsing every maximal run of whitespace to one space; the
boolean records whether the previous character was whitespace. -/
def collapseGo : Bool → List Char → List Char
  | _, [] => []
  | prevWS, c :: rest =>
    if isPySpace c then
      if prevWS then collapseGo true rest
      else ' ' :: collapseGo true rest
    else c :: collapseGo false rest

/-- Line 83, first half: collapse each whitespace run to a single space. -/
def collapseWS (l : List Char) : List Char := collapseGo false l

/-- Line 83, second half: strip leading and trailing whitespace. -/
def stripWS (l : List Char) : List Char :=
  ((l.dropWhile isPySpace).reverse.dropWhile isPySpace).reverse

/-- The sanitizer on character lists: remove invalid characters, collapse
whitespace, strip, then truncate to 255 characters (line 84). -/
def sanitizeChars (l : List Char) : List Char :=
  (stripWS (collapseWS (removeInvalid l))).take 255

/-- `sanitize_filename` (lines 79-84), on strings. -/
def sanitize_filename (s : String) : String :=
  String.mk (sanitizeChars s.data)

/-- `VideoInfo` dataclass (lines 36-43). -/
structure VideoInfo where
  title : String
  url : String
  playlist_index : Nat
  upload_info : Option String := none
  download_index : Option Nat := none
deriving DecidableEq, Repr

/-- `PlaylistInfo` dataclass (lines 45-51). -/
structure PlaylistInfo where
  title : String
  channel : String
  url : String
  total_videos : Nat
deriving DecidableEq, Repr

/-- `DownloadResult` dataclass (lines 53-59). -/
structure DownloadResult where
  success : Bool
  skipped : Bool
  title : String
  error : Option String := none
deriving DecidableEq, Repr

/-- Holds when the first character, if any, is not whitespace. -/
def headNotWS : List Char → Bool
  | [] => true
  | c :: _ => !isPySpace c

/-- Holds when the last character, if any, is not whitespace. -/
def lastNotWS (l : List Char) : Bool := headNotWS l.reverse

/-- The first characters of `a :: l` are not both whitespace. -/
def pairOk (a : Char) : List Char → Bool
  | [] => true
  | b :: _ => !(isPySpace a && isPySpace b)

/-- No two adjacent whitespace characters. -/
def noAdjWS : List Char → Bool
  | [] => true
  | a :: rest => pairOk a rest && noAdjWS rest

/-- A 300-character title (100 copies of "ab "), long enough that the
255-character truncation of the sanitizer cuts right after a space. -/
def longTitle : String := String.mk ((List.replicate 100 ['a', 'b', ' ']).flatten)

/-! ## VideoFetcher: `download_video_with_ytdlp` (lines 288-322)

Filenames are lists of characters; the destination folder is the list of
file names it contains; the external yt-dlp capability is an oracle value
(`CapResult`): on success it writes one file `sanitizedTitle.ext`
(the output template of line 293, which is literal apart from the
`%(ext)s` placeholder), on failure it reports an error text.

The existing-file check of line 296 is `output_dir.glob(f"{base}.*")`.
`Path.glob` matches one path component with fnmatch-style patterns:
`*` matches any (possibly empty) character sequence, `?` any single
character, `[seq]` one character of the class (`[!seq]` its complement,
with `a-b` ranges, a leading `]` literal, and an unclosed `[` literal).
The sanitizer removes `*` and `?` but NOT `[` or `]`, so a bracketed base
produces a pattern with a live character class. `globToks` tokenizes the
pattern the way `fnmatch.translate` scans it, and `tokMatch` matches the
token list against a name. -/

/-- Outcome of one invocation of the external download capability. -/
inductive CapResult where
  | success (ext : List Char)
  | failure (msg : List Char)
deriving DecidableEq, Repr

/-- One token of an fnmatch-style glob pattern. -/
inductive GlobTok where
  | lit (c : Char)
  | any
  | star
  | cls (neg : Bool) (body : List Char)
deriving DecidableEq, Repr

/-- Scan the text following a `[` for the closing `]`, the way
`fnmatch.translate` does: an optional leading `!`, then an optional
leading `]` taken literally, then everything up to the next `]` is the
class text; with no closing `]` there is no class and the `[` is a
literal. Returns the class text (including a leading `!`) and the
remainder after the closing `]`. -/
def scanBracket (l : List Char) : Option (List Char × List Char) :=
  let p1 : List Char × List Char :=
    match l with
    | '!' :: t => (['!'], t)
    | _ => ([], l)
  let p2 : List Char × List Char :=
    match p1.2 with
    | ']' :: t => ([']'], t)
    | _ => ([], p1.2)
  match p2.2.dropWhile (fun c => !(c == ']')) with
  | [] => none
  | _ :: r' =>
    some (p1.1 ++ p2.1 ++ p2.2.takeWhile (fun c => !(c == ']')), r')

/-- Membership of a character in a class text: `a-b` spans the code-point
range, any other character is a literal member. -/
def classMatch : List Char → Char → Bool
  | [], _ => false
  | a :: '-' :: b :: rest, c =>
    (a.val ≤ c.val && c.val ≤ b.val) || classMatch rest c
  | a :: rest, c => (a == c) || classMatch rest c

/-- Tokenize a glob pattern; each step consumes at least one pattern
character, so fuel equal to the pattern length suffices. -/
def globToksFuel : Nat → List Char → List GlobTok
  | 0, _ => []
  | _ + 1, [] => []
  | fuel + 1, c :: rest =>
    if c = '*' then GlobTok.star :: globToksFuel fuel rest
    else if c = '?' then GlobTok.any :: globToksFuel fuel rest
    else if c = '[' then
      match scanBracket rest with
      | none => GlobTok.lit '[' :: globToksFuel fuel rest
      | some (stuff, rest') =>
        (match stuff with
         | '!' :: body => GlobTok.cls true body
         | _ => GlobTok.cls false stuff) :: globToksFuel fuel rest'
    else GlobTok.lit c :: globToksFuel fuel rest

/-- Token list of a glob pattern. -/
def globToks (pat : List Char) : List GlobTok := globToksFuel pat.length pat

/-- Match a token list against a name; each step shrinks the token list
or the name, so fuel beyond their combined length suffices (see
`tokMatchFuel_irrel`). -/
def tokMatchFuel : Nat → List GlobTok → List Char → Bool
  | 0, _, _ => false
  | fuel + 1, ts, ns =>
    match ts, ns with
    | [], [] => true
    | [], _ :: _ => false
    | GlobTok.star :: ts', [] => tokMatchFuel fuel ts' []
    | GlobTok.star :: ts', c :: ns' =>
      tokMatchFuel fuel ts' (c :: ns') || tokMatchFuel fuel (GlobTok.star :: ts') ns'
    | GlobTok.any :: _, [] => false
    | GlobTok.any :: ts', _ :: ns' => tokMatchFuel fuel ts' ns'
    | GlobTok.lit _ :: _, [] => false
    | GlobTok.lit a :: ts', c :: ns' => (a == c) && tokMatchFuel fuel ts' ns'
    | GlobTok.cls _ _ :: _, [] => false
    | GlobTok.cls neg body :: ts', c :: ns' =>
      (if neg then !classMatch body c else classMatch body c) &&
        tokMatchFuel fuel ts' ns'

/-- Match a token list against a name. -/
def tokMatch (ts : List GlobTok) (ns : List Char) : Bool :=
  tokMatchFuel (ts.length + ns.length + 1) ts ns

/-- The existing-file check of line 296: whether
`output_dir.glob(f"{base}.*")` matches the file name `name`. -/
def globMatches (base name : List Char) : Bool :=
  tokMatch (globToks (base ++ ['.', '*'])) name

/-- `download_video_with_ytdlp` (lines 288-322). Returns the
`DownloadResult`-style outcome (success flag, skipped flag, reported
title, error text), the folder contents afterwards, and whether the
download capability was invoked. -/
def download_video_with_ytdlp (custom_title : List Char)
    (files : List (List Char)) (cap : CapResult) :
    (Bool × Bool × List Char × Option (List Char)) × List (List Char) × Bool :=
  let base := sanitizeChars custom_title
  if files.any (fun f => globMatches base f) then
    ((true, true, base, none), files, false)
  else
    match cap with
    | .success ext => ((true, false, base, none), files ++ [base ++ '.' :: ext], true)
    | .failure msg => ((false, false, custom_title, some msg), files, true)

/-! ## PlaylistExtractor: the discovery scroll loop (lines 121-157)

The loop is a state machine over (current rendered count, number of scroll
attempts, no-change streak), fed the sequence of rendered-entry counts
observed after each scroll; `counts i` is the count observed by the
(i+1)-th scroll, indexed by the value of `scroll_attempts` before the
scroll. The loop guard is `scroll_attempts < 100 && no_change_count < 10`
(lines 125-128) and the in-loop break is the `max_videos` check of
line 149 (`if max_videos and current_count >= max_videos`, so `None` and
`0` never trigger it). -/

/-- Loop state: `current_count`, `scroll_attempts`, `no_change_count`. -/
structure ScrollState where
  current_count : Nat
  scroll_attempts : Nat
  no_change_count : Nat
deriving DecidableEq, Repr

/-- One iteration body (lines 129-146): remember the previous count,
observe the new count, bump the attempt counter, and update the
no-change streak (increment on an unchanged count, reset to 0 on any
changed count). -/
def scrollStep (st : ScrollState) (newCount : Nat) : ScrollState :=
  { current_count := newCount,
    scroll_attempts := st.scroll_attempts + 1,
    no_change_count :=
      if newCount = st.current_count then st.no_change_count + 1 else 0 }

/-- The `max_videos` break condition of line 149; `none` and `some 0` are
falsy in Python and never break. -/
def maxMet : Option Nat → Nat → Bool
  | none, _ => false
  | some m, c => !(m == 0) && decide (m ≤ c)

/-- The scroll loop, with explicit fuel. The guard `scroll_attempts < 100`
bounds the iteration count, so fuel 100 from a fresh state is never
exhausted (see `scrollLoopAux_fuel_irrelevant`). -/
def scrollLoopAux (counts : Nat → Nat) (maxVideos : Option Nat) :
    Nat → ScrollState → ScrollState
  | 0, st => st
  | fuel + 1, st =>
    if st.scroll_attempts < 100 ∧ st.no_change_count < 10 then
      let st' := scrollStep st (counts st.scroll_attempts)
      if maxMet maxVideos st'.current_count then st'
      else scrollLoopAux counts maxVideos fuel st'
    else st

/-- Initial loop state (lines 121-124): counts 0, attempts 0, streak 0. -/
def initScroll : ScrollState := ⟨0, 0, 0⟩

/-- The whole discovery scroll loop of `extract_playlist_urls`. -/
def scrollLoop (counts : Nat → Nat) (maxVideos : Option Nat) : ScrollState :=
  scrollLoopAux counts maxVideos 100 initScroll

/-- The state after `n` unconditional iterations of the loop body from the
initial state, used to speak about individual scroll cycles. -/
def stepSeq (counts : Nat → Nat) : Nat → ScrollState
  | 0 => initScroll
  | n + 1 => scrollStep (stepSeq counts n) (counts n)

/-! ## Playlist metadata resolution: `_extract_playlist_metadata`
(lines 221-286)

The selector strategies are external; the input of the embedded function
is the list of element texts the title selectors produced (in strategy
order), likewise for the channel selectors, together with the `list`
query parameter of the current URL (when present) and the current URL. -/

/-- Strip a string the way `str.strip()` does (both ends, whitespace). -/
def stripStr (s : String) : String := String.mk (stripWS s.data)

/-- Lower-case a string (`str.lower()` on the characters involved). -/
def toLowerStr (s : String) : String := String.mk (s.data.map Char.toLower)

/-- Contiguous-substring test on character lists. -/
def hasSubChars (needle : List Char) : List Char → Bool
  | [] => needle.isEmpty
  | c :: rest => needle.isPrefixOf (c :: rest) || hasSubChars needle rest

/-- Python's `needle in hay` substring test. -/
def containsSub (hay needle : String) : Bool :=
  hasSubChars needle.data hay.data

/-- Acceptance test for a candidate playlist title (lines 241-242):
non-empty (truthiness), length strictly between 3 and 200, and not
containing "youtube" or "subscribe" case-insensitively. -/
def titleOk (t : String) : Bool :=
  !(t == "") && decide (3 < t.length) && decide (t.length < 200) &&
  !containsSub (toLowerStr t) "youtube" && !containsSub (toLowerStr t) "subscribe"

/-- The title selector loop (lines 236-246): strip each candidate text and
accept the first that passes `titleOk`. -/
def firstTitle : List String → Option String
  | [] => none
  | t :: rest =>
    let s := stripStr t
    if titleOk s then some s else firstTitle rest

/-- The channel selector loop (lines 268-276): strip each candidate text
and accept the first non-empty one. -/
def firstChannel : List String → Option String
  | [] => none
  | t :: rest =>
    let s := stripStr t
    if s == "" then firstChannel rest else some s

/-- `_extract_playlist_metadata` (lines 221-286): resolve the title with
the URL-parameter and "Unknown Playlist" fallbacks (lines 248-257), the
channel with the "Unknown" fallback (lines 278-279), and always set
`total_videos := 0` (line 285, "Will be updated later"). -/
def extract_playlist_metadata (titleTexts channelTexts : List String)
    (listParam : Option String) (currentUrl : String) : PlaylistInfo :=
  let title :=
    match firstTitle titleTexts with
    | some t => t
    | none =>
      match listParam with
      | some pid => "Playlist_" ++ pid
      | none => "Unknown Playlist"
  let channel :=
    match firstChannel channelTexts with
    | some c => c
    | none => "Unknown"
  { title := title, channel := channel, url := currentUrl, total_videos := 0 }

/-! ## PlaylistDownloadOrchestrator: `download_playlist` (lines 324-474) -/

/-- The configuration record of lines 327-335, with the source defaults. -/
structure PlaylistConfig where
  max_retries : Nat := 3
  delay_between_downloads : Nat := 3000
  continue_on_error : Bool := true
  headless : Bool := true
  max_videos : Option Nat := none
  create_playlist_folder : Bool := true
  sort_order : String := "playlist"
deriving DecidableEq, Repr

/-- What `extract_playlist_urls` returns (lines 209-212). -/
structure ExtractResult where
  playlist_info : PlaylistInfo
  videos : List VideoInfo
deriving DecidableEq, Repr

/-- The sort step (lines 356-363): `upload` and `reverse` both reverse the
discovered sequence; every other value (in particular `playlist`) keeps
it unchanged. -/
def applySort (sort_order : String) (videos : List VideoInfo) : List VideoInfo :=
  if sort_order = "upload" then videos.reverse
  else if sort_order = "reverse" then videos.reverse
  else videos

/-- The download-index assignment (lines 366-367): `enumerate` from 1 over
the sorted sequence, overwriting `download_index`. -/
def assignFrom (n : Nat) : List VideoInfo → List VideoInfo
  | [] => []
  | v :: rest => { v with download_index := some n } :: assignFrom (n + 1) rest

/-- Outcome of one per-video fetch, as classified by lines 426-432. -/
inductive FetchOutcome where
  | ok
  | skipped
  | failed
deriving DecidableEq, Repr

/-- Number of occurrences of one outcome in a list of outcomes. -/
def countOutcome (target : FetchOutcome) : List FetchOutcome → Nat
  | [] => 0
  | o :: rest => (if o = target then 1 else 0) + countOutcome target rest

/-- The counters accumulated by the download loop, plus the number of
videos actually attempted. -/
structure LoopTotals where
  success_count : Nat
  skipped_count : Nat
  fail_count : Nat
  attempted : Nat
deriving DecidableEq, Repr

/-- The download loop of lines 409-441: walk the sorted videos in order,
bump the matching counter for each outcome, and stop immediately after a
failure when `continue_on_error` is false (the `break` of line 434). -/
def runLoopGo (cont : Bool) (s k f a : Nat) : List FetchOutcome → LoopTotals
  | [] => ⟨s, k, f, a⟩
  | o :: rest =>
    match o with
    | .ok => runLoopGo cont (s + 1) k f (a + 1) rest
    | .skipped => runLoopGo cont s (k + 1) f (a + 1) rest
    | .failed =>
      if cont then runLoopGo cont s k (f + 1) (a + 1) rest
      else ⟨s, k, f + 1, a + 1⟩

/-- The summary dictionary returned by `download_playlist`
(lines 454-462); the folder path is omitted (pure path plumbing). -/
structure PlaylistSummary where
  playlist_info : PlaylistInfo
  success_count : Nat
  skipped_count : Nat
  fail_count : Nat
  total_videos : Nat
  sort_order : String
deriving DecidableEq, Repr

/-- The per-video fetch outcomes of one playlist run: the sorted, indexed
video list mapped through the fetch oracle. -/
def playlistOutcomes (res : ExtractResult) (fetch : VideoInfo → FetchOutcome)
    (cfg : PlaylistConfig) : List FetchOutcome :=
  (assignFrom 1 (applySort cfg.sort_order res.videos)).map fetch

/-- `download_playlist` (lines 324-474). The extraction result is `none`
when `extract_playlist_urls` raised (the `except` of lines 464-474
returns `None`), otherwise the extracted data; the per-video fetch
outcomes come from the oracle `fetch`. Zero discovered videos also
yield `None` (lines 351-353). -/
def download_playlist (extraction : Option ExtractResult)
    (fetch : VideoInfo → FetchOutcome) (cfg : PlaylistConfig) :
    Option PlaylistSummary :=
  match extraction with
  | none => none
  | some res =>
    if res.videos.isEmpty then none
    else
      let t := runLoopGo cfg.continue_on_error 0 0 0 0 (playlistOutcomes res fetch cfg)
      some { playlist_info := res.playlist_info,
             success_count := t.success_count,
             skipped_count := t.skipped_count,
             fail_count := t.fail_count,
             total_videos := (assignFrom 1 (applySort cfg.sort_order res.videos)).length,
             sort_order := cfg.sort_order }

/-- The per-video record stored in `playlist_info.json` (lines 384-391). -/
structure MetaVideo where
  title : String
  url : String
  playlist_index : Nat
  upload_info : Option String
deriving DecidableEq, Repr

/-- The `playlist_info.json` contents (lines 378-393); the
`extracted_at` wall-clock timestamp is external and omitted. -/
structure PlaylistMetadataFile where
  title : String
  channel : String
  url : String
  total_videos : Nat
  videos : List MetaVideo
  sort_order : String
deriving DecidableEq, Repr

/-- Construction of the persisted metadata record (lines 378-393):
`total_videos` is the length of the (sorted) video list. -/
def playlistMetadataFile (pinfo : PlaylistInfo) (videos : List VideoInfo)
    (playlist_url : String) (sort_order : String) : PlaylistMetadataFile :=
  { title := pinfo.title, channel := pinfo.channel, url := playlist_url,
    total_videos := videos.length,
    videos := videos.map (fun v => ⟨v.title, v.url, v.playlist_index, v.upload_info⟩),
    sort_order := sort_order }

/-! ## BatchOrchestrator: `download_multiple_playlists` (lines 476-577) -/

/-- One entry of the batch `results` list: either the success record of
lines 503-512 or the failure record of lines 523-528. -/
inductive BatchEntry where
  | ok (url : String) (playlist_info : PlaylistInfo)
       (success_count skipped_count fail_count total_videos : Nat)
  | err (url : String) (error : String)
deriving DecidableEq, Repr

/-- The batch summary (lines 569-577): the ordered results plus the
running totals; `total_playlists` and `successful_playlists` are derived
(input length, count of `ok` entries) and not duplicated here. -/
structure BatchSummary where
  results : List BatchEntry
  total_success : Nat
  total_skipped : Nat
  total_failed : Nat
  total_playlists_failed : Nat
deriving DecidableEq, Repr

/-- The batch loop (lines 493-541) over the list of URLs paired with their
per-playlist run outcome: `Except.error e` models `download_playlist`
raising an exception with message `e` (the `except` branch, lines
521-535), `Except.ok r` its returned value `r`. A returned `None`
(`Except.ok none`, the zero-videos or swallowed-error case) falls through
the `if result:` of line 502: nothing is recorded. An error appends the
failure record, bumps the failed counter, and the `break` of line 535
stops the batch when `continue_on_playlist_error` is false. -/
def batchGo (cont : Bool) :
    List (String × Except String (Option PlaylistSummary)) → BatchSummary
  | [] => ⟨[], 0, 0, 0, 0⟩
  | (url, run) :: rest =>
    match run with
    | .ok (some s) =>
      let b := batchGo cont rest
      ⟨.ok url s.playlist_info s.success_count s.skipped_count s.fail_count
          s.total_videos :: b.results,
       s.success_count + b.total_success, s.skipped_count + b.total_skipped,
       s.fail_count + b.total_failed, b.total_playlists_failed⟩
    | .ok none => batchGo cont rest
    | .error e =>
      if cont then
        let b := batchGo cont rest
        ⟨.err url e :: b.results, b.total_success, b.total_skipped,
         b.total_failed, b.total_playlists_failed + 1⟩
      else ⟨[.err url e], 0, 0, 0, 1⟩

/-- `download_multiple_playlists` (lines 476-577). -/
def download_multiple_playlists
    (runs : List (String × Except String (Option PlaylistSummary)))
    (cont : Bool) : BatchSummary :=
  batchGo cont runs

/-! ## Helper lemmas -/

theorem assignFrom_length (n : Nat) (l : List VideoInfo) :
    (assignFrom n l).length = l.length := by
  induction l generalizing n with
  | nil => rfl
  | cons v rest ih => simp [assignFrom, ih]

theorem applySort_length (so : String) (l : List VideoInfo) :
    (applySort so l).length = l.length := by
  unfold applySort
  by_cases h1 : so = "upload"
  · simp [h1]
  · by_cases h2 : so = "reverse" <;> simp [h1, h2]

theorem assignFrom_map_index (n : Nat) (l : List VideoInfo) :
    (assignFrom n l).map (fun v => v.download_index) =
      (List.range' n l.length).map some := by
  induction l generalizing n with
  | nil => rfl
  | cons v rest ih => simp [assignFrom, List.range'_succ, ih]

theorem assignFrom_get? (n : Nat) (l : List VideoInfo) (i : Nat) (v : VideoInfo)
    (h : l.get? i = some v) :
    (assignFrom n l).get? i = some { v with download_index := some (n + i) } := by
  induction l generalizing n i with
  | nil => simp at h
  | cons a rest ih =>
    cases i with
    | zero =>
      simp at h
      simp [assignFrom, h]
    | succ i =>
      simp only [List.get?_cons_succ] at h
      have := ih (n + 1) i h
      rw [show n + 1 + i = n + (i + 1) by omega] at this
      simpa [assignFrom] using this

theorem runLoopGo_spec (cont : Bool) (outs : List FetchOutcome) :
    ∀ (s k f a : Nat),
      (runLoopGo cont s k f a outs).success_count +
          (runLoopGo cont s k f a outs).skipped_count +
          (runLoopGo cont s k f a outs).fail_count + a =
        s + k + f + (runLoopGo cont s k f a outs).attempted ∧
      a ≤ (runLoopGo cont s k f a outs).attempted ∧
      (runLoopGo cont s k f a outs).attempted ≤ a + outs.length ∧
      (cont = true → (runLoopGo cont s k f a outs).attempted = a + outs.length) := by
  induction outs with
  | nil => intro s k f a; simp [runLoopGo]
  | cons o rest ih =>
    intro s k f a
    have hl : (o :: rest).length = rest.length + 1 := rfl
    cases o with
    | ok =>
      have e : runLoopGo cont s k f a (FetchOutcome.ok :: rest) =
          runLoopGo cont (s + 1) k f (a + 1) rest := rfl
      rw [e]
      obtain ⟨h1, h2, h3, h4⟩ := ih (s + 1) k f (a + 1)
      exact ⟨by omega, by omega, by omega, fun hc => by have := h4 hc; omega⟩
    | skipped =>
      have e : runLoopGo cont s k f a (FetchOutcome.skipped :: rest) =
          runLoopGo cont s (k + 1) f (a + 1) rest := rfl
      rw [e]
      obtain ⟨h1, h2, h3, h4⟩ := ih s (k + 1) f (a + 1)
      exact ⟨by omega, by omega, by omega, fun hc => by have := h4 hc; omega⟩
    | failed =>
      cases cont with
      | true =>
        have e : runLoopGo true s k f a (FetchOutcome.failed :: rest) =
            runLoopGo true s k (f + 1) (a + 1) rest := rfl
        rw [e]
        obtain ⟨h1, h2, h3, h4⟩ := ih s k (f + 1) (a + 1)
        exact ⟨by omega, by omega, by omega, fun _ => by have := h4 rfl; omega⟩
      | false =>
        have e : runLoopGo false s k f a (FetchOutcome.failed :: rest) =
            ⟨s, k, f + 1, a + 1⟩ := rfl
        rw [e]
        exact ⟨by show s + k + (f + 1) + a = s + k + f + (a + 1); omega,
               by show a ≤ a + 1; omega,
               by show a + 1 ≤ a + (rest.length + 1); omega,
               fun hc => by cases hc⟩

theorem scrollLoopAux_fuel_irrelevant (counts : Nat → Nat) (maxV : Option Nat) :
    ∀ (fuel fuel' : Nat) (st : ScrollState),
      100 - st.scroll_attempts ≤ fuel → 100 - st.scroll_attempts ≤ fuel' →
      scrollLoopAux counts maxV fuel st = scrollLoopAux counts maxV fuel' st := by
  intro fuel
  induction fuel with
  | zero =>
    intro fuel' st h h'
    cases fuel' with
    | zero => rfl
    | succ f' =>
      have hng : ¬(st.scroll_attempts < 100 ∧ st.no_change_count < 10) := by omega
      simp only [scrollLoopAux, if_neg hng]
  | succ f ih =>
    intro fuel' st h h'
    cases fuel' with
    | zero =>
      have hng : ¬(st.scroll_attempts < 100 ∧ st.no_change_count < 10) := by omega
      simp only [scrollLoopAux, if_neg hng]
    | succ f' =>
      by_cases hg : st.scroll_attempts < 100 ∧ st.no_change_count < 10
      · simp only [scrollLoopAux, if_pos hg]
        by_cases hm : maxMet maxV
            (scrollStep st (counts st.scroll_attempts)).current_count = true
        · rw [if_pos hm, if_pos hm]
        · rw [if_neg hm, if_neg hm]
          have ha : (scrollStep st (counts st.scroll_attempts)).scroll_attempts =
              st.scroll_attempts + 1 := rfl
          exact ih f' _ (by omega) (by omega)
      · simp only [scrollLoopAux, if_neg hg]

theorem stepSeq_attempts (counts : Nat → Nat) :
    ∀ n, (stepSeq counts n).scroll_attempts = n := by
  intro n
  induction n with
  | zero => rfl
  | succ n ih => simp [stepSeq, scrollStep, ih]

theorem stepSeq_count (counts : Nat → Nat) (n : Nat) :
    (stepSeq counts (n + 1)).current_count = counts n := rfl

/-- If from state `st` the next `10 - no_change_count` observed counts are
all unchanged (and the `max_videos` break does not fire), the loop runs
exactly those cycles and then stops with a streak of 10, regardless of
how far below the 100-attempt cap it is. -/
theorem scrollLoopAux_stall (counts : Nat → Nat) (maxV : Option Nat) :
    ∀ (fuel : Nat) (st : ScrollState),
      100 - st.scroll_attempts ≤ fuel →
      st.no_change_count ≤ 10 →
      (∀ i, i < 10 - st.no_change_count →
        counts (st.scroll_attempts + i) = st.current_count) →
      st.scroll_attempts + (10 - st.no_change_count) ≤ 100 →
      maxMet maxV st.current_count = false →
      scrollLoopAux counts maxV fuel st =
        ⟨st.current_count, st.scroll_attempts + (10 - st.no_change_count), 10⟩ := by
  intro fuel
  induction fuel with
  | zero =>
    rintro ⟨c, sa, nc⟩ hfuel hncc hstall hcap hmax
    simp only [scrollLoopAux]
    simp only at hfuel hncc hcap ⊢
    have h10 : nc = 10 := by omega
    subst h10
    simp
  | succ fuel ih =>
    intro st hfuel hncc hstall hcap hmax
    by_cases hdone : st.no_change_count = 10
    · have hng : ¬(st.scroll_attempts < 100 ∧ st.no_change_count < 10) := by omega
      simp only [scrollLoopAux, if_neg hng]
      cases st with
      | mk c sa nc =>
        simp only at hdone ⊢
        subst hdone
        simp
    · have hlt : st.no_change_count < 10 := by omega
      have hat : st.scroll_attempts < 100 := by omega
      simp only [scrollLoopAux, if_pos (And.intro hat hlt)]
      have hobs : counts st.scroll_attempts = st.current_count := by
        have := hstall 0 (by omega)
        simpa using this
      have hstep : scrollStep st (counts st.scroll_attempts) =
          ⟨st.current_count, st.scroll_attempts + 1, st.no_change_count + 1⟩ := by
        simp [scrollStep, hobs]
      rw [hstep]
      have hmax' : maxMet maxV
          (ScrollState.mk st.current_count (st.scroll_attempts + 1)
            (st.no_change_count + 1)).current_count = false := hmax
      rw [hmax']
      simp only [Bool.false_eq_true, if_false]
      have := ih ⟨st.current_count, st.scroll_attempts + 1, st.no_change_count + 1⟩
        (by simp only; omega) (by simp only; omega)
        (by
          intro i hi
          simp only at hi ⊢
          have := hstall (i + 1) (by omega)
          rw [show st.scroll_attempts + 1 + i = st.scroll_attempts + (i + 1) by omega]
          exact this)
        (by simp only; omega) hmax
      rw [this]
      simp only
      rw [show st.scroll_attempts + 1 + (10 - (st.no_change_count + 1)) =
            st.scroll_attempts + (10 - st.no_change_count) from by omega]

/-- If the counts observed from `stepSeq counts n` onwards stay below `m`
for `d` scrolls, then reach `m` at scroll `n + d` — with the loop alive
throughout (streak under 10, attempts under the cap) — the loop stops
right after that crossing scroll. -/
theorem scrollLoopAux_crossing (counts : Nat → Nat) (m : Nat) (hm : m ≠ 0) :
    ∀ (d n fuel : Nat),
      100 - n ≤ fuel →
      (∀ i, n ≤ i → i < n + d → counts i < m) →
      m ≤ counts (n + d) →
      n + d < 100 →
      (∀ i, n ≤ i → i ≤ n + d → (stepSeq counts i).no_change_count < 10) →
      scrollLoopAux counts (some m) fuel (stepSeq counts n) =
        stepSeq counts (n + d + 1) := by
  intro d
  induction d with
  | zero =>
    intro n fuel hfuel hlow hhit hcap hlive
    have hat : (stepSeq counts n).scroll_attempts = n := stepSeq_attempts counts n
    have hfu : 0 < fuel := by omega
    obtain ⟨fu, rfl⟩ : ∃ fu, fuel = fu + 1 := ⟨fuel - 1, by omega⟩
    have hg : (stepSeq counts n).scroll_attempts < 100 ∧
        (stepSeq counts n).no_change_count < 10 := by
      refine ⟨by omega, hlive n (Nat.le_refl n) (by omega)⟩
    simp only [scrollLoopAux, if_pos hg]
    rw [hat]
    have hstep : scrollStep (stepSeq counts n) (counts n) = stepSeq counts (n + 1) := rfl
    rw [hstep]
    have hc : (stepSeq counts (n + 1)).current_count = counts n := rfl
    have hmx : maxMet (some m) (stepSeq counts (n + 1)).current_count = true := by
      rw [hc]
      have : m ≤ counts n := by simpa using hhit
      simp [maxMet, hm, this]
    rw [hmx]
    simp
  | succ d ih =>
    intro n fuel hfuel hlow hhit hcap hlive
    have hat : (stepSeq counts n).scroll_attempts = n := stepSeq_attempts counts n
    obtain ⟨fu, rfl⟩ : ∃ fu, fuel = fu + 1 := ⟨fuel - 1, by omega⟩
    have hg : (stepSeq counts n).scroll_attempts < 100 ∧
        (stepSeq counts n).no_change_count < 10 := by
      refine ⟨by omega, hlive n (Nat.le_refl n) (by omega)⟩
    simp only [scrollLoopAux, if_pos hg]
    rw [hat]
    have hstep : scrollStep (stepSeq counts n) (counts n) = stepSeq counts (n + 1) := rfl
    rw [hstep]
    have hc : (stepSeq counts (n + 1)).current_count = counts n := rfl
    have hmx : maxMet (some m) (stepSeq counts (n + 1)).current_count = false := by
      rw [hc]
      have : counts n < m := hlow n (Nat.le_refl n) (by omega)
      simp [maxMet, Nat.not_le.mpr this]
    rw [hmx]
    simp only [Bool.false_eq_true, if_false]
    have := ih (n + 1) fu (by omega)
      (fun i h1 h2 => hlow i (by omega) (by omega))
      (by rw [show n + 1 + d = n + (d + 1) by omega]; exact hhit)
      (by omega)
      (fun i h1 h2 => hlive i (by omega) (by omega))
    rw [this, show n + 1 + d + 1 = n + (d + 1) + 1 by omega]

theorem runLoopGo_first_fail (outs : List FetchOutcome) :
    ∀ (kk s k f a : Nat),
      kk < outs.length →
      (∀ i, i < kk → outs.get? i ≠ some FetchOutcome.failed) →
      outs.get? kk = some FetchOutcome.failed →
      runLoopGo false s k f a outs =
        ⟨s + countOutcome .ok (outs.take kk),
         k + countOutcome .skipped (outs.take kk), f + 1, a + kk + 1⟩ := by
  induction outs with
  | nil => intro kk s k f a h; simp at h
  | cons o rest ih =>
    intro kk s k f a hlen hpre hat
    cases kk with
    | zero =>
      simp only [List.get?_cons_zero, Option.some.injEq] at hat
      subst hat
      simp [runLoopGo, countOutcome]
    | succ kk =>
      have ho : o ≠ FetchOutcome.failed := by
        intro h
        exact hpre 0 (Nat.zero_lt_succ kk) (by simp [h])
      have hlen' : kk < rest.length := by simpa using hlen
      have hpre' : ∀ i, i < kk → rest.get? i ≠ some FetchOutcome.failed := by
        intro i hi
        have := hpre (i + 1) (by omega)
        simpa using this
      have hat' : rest.get? kk = some FetchOutcome.failed := by simpa using hat
      cases o with
      | ok =>
        rw [show runLoopGo false s k f a (FetchOutcome.ok :: rest) =
              runLoopGo false (s + 1) k f (a + 1) rest from rfl,
            ih kk (s + 1) k f (a + 1) hlen' hpre' hat']
        simp [List.take_succ_cons, countOutcome, LoopTotals.mk.injEq]
        omega
      | skipped =>
        rw [show runLoopGo false s k f a (FetchOutcome.skipped :: rest) =
              runLoopGo false s (k + 1) f (a + 1) rest from rfl,
            ih kk s (k + 1) f (a + 1) hlen' hpre' hat']
        simp [List.take_succ_cons, countOutcome, LoopTotals.mk.injEq]
        omega
      | failed => exact absurd rfl ho

/-! ### Sanitizer lemmas -/

theorem mem_collapseGo {c : Char} :
    ∀ (b : Bool) (l : List Char), c ∈ collapseGo b l → c = ' ' ∨ c ∈ l := by
  intro b l
  induction l generalizing b with
  | nil => intro h; simp [collapseGo] at h
  | cons a rest ih =>
    intro h
    cases hsp : isPySpace a with
    | true =>
      cases b with
      | true =>
        have e : collapseGo true (a :: rest) = collapseGo true rest := by
          simp [collapseGo, hsp]
        rw [e] at h
        rcases ih true h with h' | h'
        · exact Or.inl h'
        · exact Or.inr (List.mem_cons_of_mem a h')
      | false =>
        have e : collapseGo false (a :: rest) = ' ' :: collapseGo true rest := by
          simp [collapseGo, hsp]
        rw [e] at h
        rcases List.mem_cons.mp h with h' | h'
        · exact Or.inl h'
        · rcases ih true h' with h'' | h''
          · exact Or.inl h''
          · exact Or.inr (List.mem_cons_of_mem a h'')
    | false =>
      have e : collapseGo b (a :: rest) = a :: collapseGo false rest := by
        cases b <;> simp [collapseGo, hsp]
      rw [e] at h
      rcases List.mem_cons.mp h with h' | h'
      · exact Or.inr (List.mem_cons.mpr (Or.inl h'))
      · rcases ih false h' with h'' | h''
        · exact Or.inl h''
        · exact Or.inr (List.mem_cons_of_mem a h'')

theorem collapseGo_ws_space {c : Char} (hc : isPySpace c = true) :
    ∀ (b : Bool) (l : List Char), c ∈ collapseGo b l → c = ' ' := by
  intro b l
  induction l generalizing b with
  | nil => intro h; simp [collapseGo] at h
  | cons a rest ih =>
    intro h
    cases hsp : isPySpace a with
    | true =>
      cases b with
      | true =>
        have e : collapseGo true (a :: rest) = collapseGo true rest := by
          simp [collapseGo, hsp]
        rw [e] at h
        exact ih true h
      | false =>
        have e : collapseGo false (a :: rest) = ' ' :: collapseGo true rest := by
          simp [collapseGo, hsp]
        rw [e] at h
        rcases List.mem_cons.mp h with h' | h'
        · exact h'
        · exact ih true h'
    | false =>
      have e : collapseGo b (a :: rest) = a :: collapseGo false rest := by
        cases b <;> simp [collapseGo, hsp]
      rw [e] at h
      rcases List.mem_cons.mp h with h' | h'
      · rw [h'] at hc; rw [hc] at hsp; cases hsp
      · exact ih false h'

theorem mem_stripWS (l : List Char) (c : Char) (h : c ∈ stripWS l) : c ∈ l := by
  unfold stripWS at h
  rw [List.mem_reverse] at h
  have h1 : c ∈ (l.dropWhile isPySpace).reverse :=
    (List.dropWhile_suffix isPySpace).subset h
  rw [List.mem_reverse] at h1
  exact (List.dropWhile_suffix isPySpace).subset h1

theorem sanitizeChars_no_invalid (l : List Char) :
    ∀ c ∈ sanitizeChars l, invalidChar c = false := by
  intro c hc
  unfold sanitizeChars at hc
  have hc1 : c ∈ stripWS (collapseWS (removeInvalid l)) := List.take_subset 255 _ hc
  have hc2 : c ∈ collapseWS (removeInvalid l) := mem_stripWS _ _ hc1
  rcases mem_collapseGo false _ hc2 with h | h
  · subst h; rfl
  · have := (List.mem_filter.mp h).2
    simpa using this

theorem sanitizeChars_ws_space (l : List Char) :
    ∀ c ∈ sanitizeChars l, isPySpace c = true → c = ' ' := by
  intro c hc hws
  unfold sanitizeChars at hc
  have hc1 : c ∈ stripWS (collapseWS (removeInvalid l)) := List.take_subset 255 _ hc
  have hc2 : c ∈ collapseWS (removeInvalid l) := mem_stripWS _ _ hc1
  exact collapseGo_ws_space hws false _ hc2

theorem pairOk_of_not_ws {a : Char} (h : isPySpace a = false) (l : List Char) :
    pairOk a l = true := by
  cases l <;> simp [pairOk, h]

theorem pairOk_of_head {a : Char} (l : List Char) (h : headNotWS l = true) :
    pairOk a l = true := by
  cases l with
  | nil => rfl
  | cons b t =>
    have hb : isPySpace b = false := by simpa [headNotWS] using h
    simp [pairOk, hb]

theorem collapse_shape :
    ∀ (l : List Char),
      noAdjWS (collapseGo false l) = true ∧
      noAdjWS (collapseGo true l) = true ∧
      headNotWS (collapseGo true l) = true := by
  intro l
  induction l with
  | nil => exact ⟨rfl, rfl, rfl⟩
  | cons a rest ih =>
    obtain ⟨ihF, ihT, ihH⟩ := ih
    cases hsp : isPySpace a with
    | true =>
      have eF : collapseGo false (a :: rest) = ' ' :: collapseGo true rest := by
        simp [collapseGo, hsp]
      have eT : collapseGo true (a :: rest) = collapseGo true rest := by
        simp [collapseGo, hsp]
      refine ⟨?_, by rw [eT]; exact ihT, by rw [eT]; exact ihH⟩
      rw [eF]
      show (pairOk ' ' (collapseGo true rest) && noAdjWS (collapseGo true rest)) = true
      rw [pairOk_of_head _ ihH, ihT]
      rfl
    | false =>
      have eF : collapseGo false (a :: rest) = a :: collapseGo false rest := by
        simp [collapseGo, hsp]
      have eT : collapseGo true (a :: rest) = a :: collapseGo false rest := by
        simp [collapseGo, hsp]
      have hadj : noAdjWS (a :: collapseGo false rest) = true := by
        show (pairOk a (collapseGo false rest) && noAdjWS (collapseGo false rest)) = true
        rw [pairOk_of_not_ws hsp, ihF]
        rfl
      refine ⟨by rw [eF]; exact hadj, by rw [eT]; exact hadj, ?_⟩
      rw [eT]
      show (!isPySpace a) = true
      rw [hsp]
      rfl

theorem headNotWS_dropWhile (l : List Char) :
    headNotWS (l.dropWhile isPySpace) = true := by
  induction l with
  | nil => rfl
  | cons a rest ih =>
    rw [List.dropWhile_cons]
    cases hsp : isPySpace a with
    | true => simpa [hsp] using ih
    | false => simp [hsp, headNotWS]

theorem noAdjWS_dropWhile (l : List Char) (h : noAdjWS l = true) :
    noAdjWS (l.dropWhile isPySpace) = true := by
  induction l with
  | nil => exact h
  | cons a rest ih =>
    have h' : pairOk a rest = true ∧ noAdjWS rest = true := by
      simpa [noAdjWS, Bool.and_eq_true] using h
    rw [List.dropWhile_cons]
    cases hsp : isPySpace a with
    | true => simpa [hsp] using ih h'.2
    | false => simpa [hsp, noAdjWS] using h

theorem noAdjWS_append_left :
    ∀ (x y : List Char), noAdjWS (x ++ y) = true → noAdjWS x = true := by
  intro x y
  induction x with
  | nil => intro _; rfl
  | cons a rest ih =>
    intro h
    have h' : pairOk a (rest ++ y) = true ∧ noAdjWS (rest ++ y) = true := by
      simpa [noAdjWS, Bool.and_eq_true] using h
    have hp : pairOk a rest = true := by
      cases rest with
      | nil => rfl
      | cons b t => simpa [pairOk] using h'.1
    show (pairOk a rest && noAdjWS rest) = true
    rw [hp, ih h'.2]
    rfl

theorem headNotWS_append_left (x y : List Char)
    (h : headNotWS (x ++ y) = true) : headNotWS x = true := by
  cases x with
  | nil => rfl
  | cons a t => simpa [headNotWS] using h

theorem stripWS_decomp (l : List Char) :
    ∃ t : List Char, l.dropWhile isPySpace = stripWS l ++ t := by
  obtain ⟨t, ht⟩ := List.dropWhile_suffix (l := (l.dropWhile isPySpace).reverse) isPySpace
  refine ⟨t.reverse, ?_⟩
  have : (l.dropWhile isPySpace).reverse.reverse =
      (t ++ (l.dropWhile isPySpace).reverse.dropWhile isPySpace).reverse := by
    rw [ht]
  rw [List.reverse_reverse, List.reverse_append] at this
  rw [this]
  rfl

theorem headNotWS_stripWS (l : List Char) : headNotWS (stripWS l) = true := by
  obtain ⟨t, ht⟩ := stripWS_decomp l
  exact headNotWS_append_left _ t (ht ▸ headNotWS_dropWhile l)

theorem lastNotWS_stripWS (l : List Char) : lastNotWS (stripWS l) = true := by
  unfold lastNotWS stripWS
  rw [List.reverse_reverse]
  exact headNotWS_dropWhile _

theorem noAdjWS_stripWS (l : List Char) (h : noAdjWS l = true) :
    noAdjWS (stripWS l) = true := by
  obtain ⟨t, ht⟩ := stripWS_decomp l
  exact noAdjWS_append_left _ t (ht ▸ noAdjWS_dropWhile l h)

theorem headNotWS_take (n : Nat) (l : List Char) (h : headNotWS l = true) :
    headNotWS (l.take n) = true := by
  cases n with
  | zero => rfl
  | succ n =>
    cases l with
    | nil => rfl
    | cons a t => simpa [headNotWS, List.take_succ_cons] using h

theorem noAdjWS_take (n : Nat) (l : List Char) (h : noAdjWS l = true) :
    noAdjWS (l.take n) = true := by
  apply noAdjWS_append_left (l.take n) (l.drop n)
  rw [List.take_append_drop]
  exact h

theorem removeInvalid_eq_self (l : List Char)
    (h : ∀ c ∈ l, invalidChar c = false) : removeInvalid l = l := by
  unfold removeInvalid
  rw [List.filter_eq_self]
  intro a ha
  simp [h a ha]

theorem collapseGo_eq_self :
    ∀ (l : List Char),
      (∀ c ∈ l, isPySpace c = true → c = ' ') → noAdjWS l = true →
      (collapseGo false l = l ∧
       (headNotWS l = true → collapseGo true l = l)) := by
  intro l
  induction l with
  | nil => exact fun _ _ => ⟨rfl, fun _ => rfl⟩
  | cons a rest ih =>
    intro hws hadj
    have h' : pairOk a rest = true ∧ noAdjWS rest = true := by
      simpa [noAdjWS, Bool.and_eq_true] using hadj
    have hws' : ∀ c ∈ rest, isPySpace c = true → c = ' ' :=
      fun c hc => hws c (List.mem_cons_of_mem a hc)
    cases hsp : isPySpace a with
    | true =>
      have haSp : a = ' ' := hws a (List.mem_cons_self a rest) hsp
      have hrh : headNotWS rest = true := by
        cases rest with
        | nil => rfl
        | cons b t =>
          have : (!(isPySpace a && isPySpace b)) = true := h'.1
          rw [hsp] at this
          show (!isPySpace b) = true
          simpa using this
      have hT : collapseGo true rest = rest := (ih hws' h'.2).2 hrh
      constructor
      · have e : collapseGo false (a :: rest) = ' ' :: collapseGo true rest := by
          simp [collapseGo, hsp]
        rw [e, hT, haSp]
      · intro hh
        have : (!isPySpace a) = true := hh
        rw [hsp] at this
        simp at this
    | false =>
      have hF : collapseGo false rest = rest := (ih hws' h'.2).1
      constructor
      · have e : collapseGo false (a :: rest) = a :: collapseGo false rest := by
          simp [collapseGo, hsp]
        rw [e, hF]
      · intro _
        have e : collapseGo true (a :: rest) = a :: collapseGo false rest := by
          simp [collapseGo, hsp]
        rw [e, hF]

theorem dropWhile_eq_self (l : List Char) (h : headNotWS l = true) :
    l.dropWhile isPySpace = l := by
  cases l with
  | nil => rfl
  | cons a t =>
    have ha : isPySpace a = false := by simpa [headNotWS] using h
    simp [List.dropWhile_cons, ha]

theorem stripWS_eq_self (l : List Char) (h1 : headNotWS l = true)
    (h2 : lastNotWS l = true) : stripWS l = l := by
  unfold stripWS
  rw [dropWhile_eq_self l h1, dropWhile_eq_self l.reverse h2, List.reverse_reverse]

theorem sanitizeChars_length_le (l : List Char) :
    (sanitizeChars l).length ≤ 255 :=
  List.length_take_le 255 _

theorem sanitizeChars_idem (l : List Char)
    (h : lastNotWS (sanitizeChars l) = true) :
    sanitizeChars (sanitizeChars l) = sanitizeChars l := by
  have hinv : ∀ c ∈ sanitizeChars l, invalidChar c = false := sanitizeChars_no_invalid l
  have hws : ∀ c ∈ sanitizeChars l, isPySpace c = true → c = ' ' := sanitizeChars_ws_space l
  have hhead : headNotWS (sanitizeChars l) = true := by
    unfold sanitizeChars
    exact headNotWS_take 255 _ (headNotWS_stripWS _)
  have hadj : noAdjWS (sanitizeChars l) = true := by
    unfold sanitizeChars
    exact noAdjWS_take 255 _ (noAdjWS_stripWS _ (collapse_shape _).1)
  have hlen : (sanitizeChars l).length ≤ 255 := sanitizeChars_length_le l
  show (stripWS (collapseWS (removeInvalid (sanitizeChars l)))).take 255 = sanitizeChars l
  rw [removeInvalid_eq_self _ hinv]
  rw [show collapseWS (sanitizeChars l) = collapseGo false (sanitizeChars l) from rfl]
  rw [(collapseGo_eq_self _ hws hadj).1]
  rw [stripWS_eq_self _ hhead h]
  exact List.take_of_length_le hlen

/-! ### Glob matcher lemmas -/

theorem tokMatchFuel_irrel :
    ∀ (fuel : Nat) (ts : List GlobTok) (ns : List Char) (fuel' : Nat),
      ts.length + ns.length < fuel → ts.length + ns.length < fuel' →
      tokMatchFuel fuel ts ns = tokMatchFuel fuel' ts ns := by
  intro fuel
  induction fuel with
  | zero => intro ts ns fuel' h h'; omega
  | succ f ih =>
    intro ts ns fuel' h h'
    obtain ⟨f', rfl⟩ : ∃ g, fuel' = g + 1 := ⟨fuel' - 1, by omega⟩
    cases ts with
    | nil =>
      cases ns with
      | nil => rfl
      | cons c ns' => rfl
    | cons t ts' =>
      cases t with
      | star =>
        cases ns with
        | nil =>
          show tokMatchFuel f ts' [] = tokMatchFuel f' ts' []
          exact ih ts' [] f' (by simp at h ⊢; omega) (by simp at h' ⊢; omega)
        | cons c ns' =>
          show (tokMatchFuel f ts' (c :: ns') ||
                tokMatchFuel f (GlobTok.star :: ts') ns') =
               (tokMatchFuel f' ts' (c :: ns') ||
                tokMatchFuel f' (GlobTok.star :: ts') ns')
          rw [ih ts' (c :: ns') f' (by simp at h ⊢; omega) (by simp at h' ⊢; omega),
              ih (GlobTok.star :: ts') ns' f' (by simp at h ⊢; omega)
                (by simp at h' ⊢; omega)]
      | any =>
        cases ns with
        | nil => rfl
        | cons c ns' =>
          show tokMatchFuel f ts' ns' = tokMatchFuel f' ts' ns'
          exact ih ts' ns' f' (by simp at h ⊢; omega) (by simp at h' ⊢; omega)
      | lit a =>
        cases ns with
        | nil => rfl
        | cons c ns' =>
          show ((a == c) && tokMatchFuel f ts' ns') =
               ((a == c) && tokMatchFuel f' ts' ns')
          rw [ih ts' ns' f' (by simp at h ⊢; omega) (by simp at h' ⊢; omega)]
      | cls neg body =>
        cases ns with
        | nil => rfl
        | cons c ns' =>
          show ((if neg then !classMatch body c else classMatch body c) &&
                  tokMatchFuel f ts' ns') =
               ((if neg then !classMatch body c else classMatch body c) &&
                  tokMatchFuel f' ts' ns')
          rw [ih ts' ns' f' (by simp at h ⊢; omega) (by simp at h' ⊢; omega)]

theorem tokMatch_lit_nil (a : Char) (ts' : List GlobTok) :
    tokMatch (GlobTok.lit a :: ts') [] = false := rfl

theorem tokMatch_lit_cons (a : Char) (ts' : List GlobTok) (c : Char)
    (ns' : List Char) :
    tokMatch (GlobTok.lit a :: ts') (c :: ns') = ((a == c) && tokMatch ts' ns') := by
  show ((a == c) &&
      tokMatchFuel ((GlobTok.lit a :: ts').length + (c :: ns').length) ts' ns') =
    ((a == c) && tokMatchFuel (ts'.length + ns'.length + 1) ts' ns')
  rw [tokMatchFuel_irrel _ ts' ns' (ts'.length + ns'.length + 1)
    (by simp; omega) (by omega)]

theorem tokMatch_star_nil (ts' : List GlobTok) :
    tokMatch (GlobTok.star :: ts') [] = tokMatch ts' [] := by
  show tokMatchFuel ((GlobTok.star :: ts').length + ([] : List Char).length) ts' [] =
    tokMatchFuel (ts'.length + ([] : List Char).length + 1) ts' []
  rw [tokMatchFuel_irrel _ ts' [] (ts'.length + ([] : List Char).length + 1)
    (by simp) (by simp)]

theorem tokMatch_star_cons (ts' : List GlobTok) (c : Char) (ns' : List Char) :
    tokMatch (GlobTok.star :: ts') (c :: ns') =
      (tokMatch ts' (c :: ns') || tokMatch (GlobTok.star :: ts') ns') := by
  show (tokMatchFuel ((GlobTok.star :: ts').length + (c :: ns').length) ts' (c :: ns') ||
        tokMatchFuel ((GlobTok.star :: ts').length + (c :: ns').length)
          (GlobTok.star :: ts') ns') = _
  rw [tokMatchFuel_irrel _ ts' (c :: ns') (ts'.length + (c :: ns').length + 1)
        (by simp only [List.length_cons]; omega) (by omega),
      tokMatchFuel_irrel _ (GlobTok.star :: ts') ns'
        ((GlobTok.star :: ts').length + ns'.length + 1)
        (by simp only [List.length_cons]; omega) (by omega)]
  rfl

theorem tokMatch_star_any (ns : List Char) : tokMatch [GlobTok.star] ns = true := by
  induction ns with
  | nil => rw [tokMatch_star_nil]; rfl
  | cons c ns' ih => rw [tokMatch_star_cons, ih]; simp

theorem tokMatch_lits (base : List Char) :
    ∀ (ts : List GlobTok) (ns : List Char),
      tokMatch (base.map GlobTok.lit ++ ts) ns = true ↔
        ∃ ns', ns = base ++ ns' ∧ tokMatch ts ns' = true := by
  induction base with
  | nil => intro ts ns; simp
  | cons a base' ih =>
    intro ts ns
    have e : (a :: base').map GlobTok.lit ++ ts =
        GlobTok.lit a :: (base'.map GlobTok.lit ++ ts) := rfl
    cases ns with
    | nil =>
      rw [e, tokMatch_lit_nil]
      simp
    | cons c ns0 =>
      rw [e, tokMatch_lit_cons]
      constructor
      · intro hb
        rw [Bool.and_eq_true] at hb
        have hac : a = c := by simpa using hb.1
        obtain ⟨ns', rfl, hts⟩ := (ih ts ns0).mp hb.2
        subst hac
        exact ⟨ns', rfl, hts⟩
      · rintro ⟨ns', heq, hts⟩
        injection heq with h1 h2
        rw [Bool.and_eq_true]
        refine ⟨by simp [h1], (ih ts ns0).mpr ⟨ns', h2, hts⟩⟩

theorem tokMatch_dot_star (ns : List Char) :
    tokMatch [GlobTok.lit '.', GlobTok.star] ns = true ↔
      ∃ rest, ns = '.' :: rest := by
  cases ns with
  | nil =>
    rw [tokMatch_lit_nil]
    simp
  | cons c ns' =>
    rw [tokMatch_lit_cons]
    constructor
    · intro hb
      rw [Bool.and_eq_true] at hb
      have hdc : '.' = c := by simpa using hb.1
      exact ⟨ns', by rw [← hdc]⟩
    · rintro ⟨rest, heq⟩
      injection heq with h1 h2
      rw [Bool.and_eq_true]
      exact ⟨by simp [h1], tokMatch_star_any ns'⟩

theorem globToksFuel_lits :
    ∀ (base : List Char) (fuel : Nat) (rest : List Char),
      (∀ c ∈ base, c ≠ '*' ∧ c ≠ '?' ∧ c ≠ '[') →
      base.length ≤ fuel →
      globToksFuel fuel (base ++ rest) =
        base.map GlobTok.lit ++ globToksFuel (fuel - base.length) rest := by
  intro base
  induction base with
  | nil => intro fuel rest h hf; simp
  | cons a base' ih =>
    intro fuel rest h hf
    obtain ⟨f, rfl⟩ : ∃ g, fuel = g + 1 := ⟨fuel - 1, by simp at hf; omega⟩
    have ha := h a (List.mem_cons_self a base')
    have e : globToksFuel (f + 1) ((a :: base') ++ rest) =
        GlobTok.lit a :: globToksFuel f (base' ++ rest) := by
      show globToksFuel (f + 1) (a :: (base' ++ rest)) = _
      simp only [globToksFuel]
      rw [if_neg ha.1, if_neg ha.2.1, if_neg ha.2.2]
    rw [e, ih f rest (fun c hc => h c (List.mem_cons_of_mem a hc))
      (by simp at hf; omega)]
    simp [Nat.succ_sub_succ]

theorem globToks_no_meta (base : List Char)
    (h : ∀ c ∈ base, c ≠ '*' ∧ c ≠ '?' ∧ c ≠ '[') :
    globToks (base ++ ['.', '*']) =
      base.map GlobTok.lit ++ [GlobTok.lit '.', GlobTok.star] := by
  unfold globToks
  rw [globToksFuel_lits base ((base ++ ['.', '*']).length) ['.', '*'] h (by simp)]
  have e : (base ++ ['.', '*']).length - base.length = 2 := by simp
  rw [e]
  rfl

/-- For a base with none of the glob metacharacters `*`, `?`, `[`, the
pattern `base.*` matches a name exactly when the name is the base followed
by a dot and an arbitrary (possibly empty) extension. -/
theorem globMatches_iff (base name : List Char)
    (h : ∀ c ∈ base, c ≠ '*' ∧ c ≠ '?' ∧ c ≠ '[') :
    globMatches base name = true ↔ ∃ rest, name = base ++ '.' :: rest := by
  unfold globMatches
  rw [globToks_no_meta base h]
  constructor
  · intro hm
    obtain ⟨ns', rfl, hts⟩ := (tokMatch_lits base _ name).mp hm
    obtain ⟨rest, rfl⟩ := (tokMatch_dot_star ns').mp hts
    exact ⟨rest, rfl⟩
  · rintro ⟨rest, rfl⟩
    exact (tokMatch_lits base _ _).mpr
      ⟨'.' :: rest, rfl, (tokMatch_dot_star _).mpr ⟨rest, rfl⟩⟩

theorem sanitizeChars_no_star_question (l : List Char) :
    ∀ c ∈ sanitizeChars l, c ≠ '*' ∧ c ≠ '?' := by
  intro c hc
  have hinv := sanitizeChars_no_invalid l c hc
  constructor <;> intro he <;> rw [he] at hinv <;> exact absurd hinv (by decide)

/-! ## Claims -/

/-- C1: For every playlist run that processes its whole sorted video list,
the returned summary satisfies
`succeeded + skipped + failed == totalVideos`, with `totalVideos` the
length of the sorted video list; if the run stops early through the
stop-on-error policy (`continue_on_error = false`), the sum is at most
`totalVideos` — in fact strictly below it, which is how the summary records
the early abort (the summary dictionary of lines 454-462 has no separate
abort field, and a strict deficit occurs exactly on an early abort). -/
theorem playlist_summary_arithmetic (res : ExtractResult)
    (fetch : VideoInfo → FetchOutcome) (cfg : PlaylistConfig)
    (s : PlaylistSummary)
    (h : download_playlist (some res) fetch cfg = some s) :
    s.total_videos = (applySort cfg.sort_order res.videos).length ∧
    s.success_count + s.skipped_count + s.fail_count =
      (runLoopGo cfg.continue_on_error 0 0 0 0 (playlistOutcomes res fetch cfg)).attempted ∧
    s.success_count + s.skipped_count + s.fail_count ≤ s.total_videos ∧
    (cfg.continue_on_error = true →
      s.success_count + s.skipped_count + s.fail_count = s.total_videos) ∧
    ((runLoopGo cfg.continue_on_error 0 0 0 0 (playlistOutcomes res fetch cfg)).attempted
        < s.total_videos →
      s.success_count + s.skipped_count + s.fail_count < s.total_videos ∧
      cfg.continue_on_error = false) := by
  simp only [download_playlist] at h
  cases he : res.videos.isEmpty with
  | true => simp [he] at h
  | false =>
    simp only [he, Bool.false_eq_true, if_false, Option.some.injEq] at h
    subst h
    obtain ⟨h1, h2, h3, h4⟩ :=
      runLoopGo_spec cfg.continue_on_error (playlistOutcomes res fetch cfg) 0 0 0 0
    have hlen : (playlistOutcomes res fetch cfg).length =
        (applySort cfg.sort_order res.videos).length := by
      simp [playlistOutcomes, assignFrom_length]
    have htv : (assignFrom 1 (applySort cfg.sort_order res.videos)).length =
        (applySort cfg.sort_order res.videos).length := assignFrom_length _ _
    simp only
    refine ⟨htv, by omega, by omega, fun hc => by have := h4 hc; omega, fun hlt => ?_⟩
    refine ⟨by omega, ?_⟩
    cases hc : cfg.continue_on_error with
    | false => rfl
    | true => have := h4 hc; omega

theorem playlist_summary_arithmetic_witness :
    (⟨⟨"T", "C", "U", 0⟩, 1, 0, 0, 1, "playlist"⟩ : PlaylistSummary).success_count +
      (⟨⟨"T", "C", "U", 0⟩, 1, 0, 0, 1, "playlist"⟩ : PlaylistSummary).skipped_count +
      (⟨⟨"T", "C", "U", 0⟩, 1, 0, 0, 1, "playlist"⟩ : PlaylistSummary).fail_count =
      (⟨⟨"T", "C", "U", 0⟩, 1, 0, 0, 1, "playlist"⟩ : PlaylistSummary).total_videos :=
  (playlist_summary_arithmetic ⟨⟨"T", "C", "U", 0⟩, [⟨"t", "u", 1, none, none⟩]⟩
    (fun _ => FetchOutcome.ok) {} ⟨⟨"T", "C", "U", 0⟩, 1, 0, 0, 1, "playlist"⟩
    (by decide)).2.2.2.1 rfl

/-- C2 (amended): the no-change streak increments when the rendered count
is unchanged between consecutive scrolls and resets to 0 on any increase;
and ten consecutive scroll cycles with an *unchanged* rendered count
terminate the discovery loop at that point, deterministically and
independently of the 100-attempt cap. (Over arbitrary count sequences the
original claim fails: a decrease is also "no increase" yet resets the
streak, so ten consecutive non-increases need not stop the loop — see
`discovery_nonincrease_no_termination`.) -/
theorem discovery_streak_and_stall :
    (∀ (st : ScrollState) (c : Nat), c = st.current_count →
      (scrollStep st c).no_change_count = st.no_change_count + 1) ∧
    (∀ (st : ScrollState) (c : Nat), st.current_count < c →
      (scrollStep st c).no_change_count = 0) ∧
    (∀ (counts : Nat → Nat) (maxV : Option Nat) (fuel : Nat) (st : ScrollState),
      100 - st.scroll_attempts ≤ fuel →
      st.no_change_count ≤ 10 →
      (∀ i, i < 10 - st.no_change_count →
        counts (st.scroll_attempts + i) = st.current_count) →
      st.scroll_attempts + (10 - st.no_change_count) ≤ 100 →
      maxMet maxV st.current_count = false →
      scrollLoopAux counts maxV fuel st =
        ⟨st.current_count, st.scroll_attempts + (10 - st.no_change_count), 10⟩) := by
  refine ⟨?_, ?_, ?_⟩
  · intro st c h
    show (if c = st.current_count then st.no_change_count + 1 else 0) =
      st.no_change_count + 1
    rw [if_pos h]
  · intro st c h
    show (if c = st.current_count then st.no_change_count + 1 else 0) = 0
    rw [if_neg (by omega)]
  · intro counts maxV fuel st h1 h2 h3 h4 h5
    exact scrollLoopAux_stall counts maxV fuel st h1 h2 h3 h4 h5

theorem discovery_streak_and_stall_witness :
    (scrollStep ⟨5, 3, 2⟩ 5).no_change_count = 3 ∧
    (scrollStep ⟨5, 3, 2⟩ 7).no_change_count = 0 ∧
    scrollLoopAux (fun _ => 4) none 100 ⟨4, 0, 0⟩ = ⟨4, 10, 10⟩ := by
  refine ⟨discovery_streak_and_stall.1 ⟨5, 3, 2⟩ 5 rfl,
          discovery_streak_and_stall.2.1 ⟨5, 3, 2⟩ 7 (by decide), ?_⟩
  have h := discovery_streak_and_stall.2.2 (fun _ => 4) none 100 ⟨4, 0, 0⟩
    (by decide) (by decide) (fun i _ => rfl) (by decide) rfl
  simpa using h

/-- C2 counterexample: fed the strictly decreasing count sequence
10, 9, 8, …, scroll cycles 1 through 10 each observe no increase
(each observed count is at most the previous one), so by the claim the
loop should terminate right there, after 11 total scrolls; instead the
streak is reset by every decrease and the loop keeps going until ten
*unchanged* cycles at count 0 finish it after 21 scrolls. -/
theorem discovery_nonincrease_no_termination :
    (∀ j, j ≤ 10 → 1 ≤ j →
      (fun i => 10 - i) j ≤ (stepSeq (fun i => 10 - i) j).current_count) ∧
    (scrollLoop (fun i => 10 - i) none).scroll_attempts = 21 ∧
    ¬(scrollLoop (fun i => 10 - i) none).scroll_attempts = 11 := by decide

/-- C3 (amended): a per-playlist run that raises/propagates an error makes
the batch append a failure record (URL plus error message) to the ordered
results, increment the playlists-failed counter, and stop processing the
remaining URLs when `continue_on_playlist_error` is false; but a run that
returns absent (the zero-videos outcome of `download_playlist`) is
silently skipped by the `if result:` of line 502 — the batch continues
without crashing yet records no entry for that URL and counts nothing
(the original claim said its outcome is recorded; see
`batch_drops_absent_run`). -/
theorem batch_error_and_absent_handling (url e : String)
    (rest : List (String × Except String (Option PlaylistSummary))) (cont : Bool) :
    download_multiple_playlists ((url, Except.error e) :: rest) false =
      ⟨[BatchEntry.err url e], 0, 0, 0, 1⟩ ∧
    (download_multiple_playlists ((url, Except.error e) :: rest) true).results =
      BatchEntry.err url e :: (download_multiple_playlists rest true).results ∧
    (download_multiple_playlists ((url, Except.error e) :: rest) true).total_playlists_failed =
      (download_multiple_playlists rest true).total_playlists_failed + 1 ∧
    download_multiple_playlists ((url, Except.ok none) :: rest) cont =
      download_multiple_playlists rest cont := by
  refine ⟨rfl, rfl, rfl, rfl⟩

/-- C3 counterexample: a batch with one URL whose run finds zero videos
(`download_playlist` returns absent): the batch result has an empty
results list — no outcome is recorded for that URL — and the
playlists-failed counter stays 0. -/
theorem batch_drops_absent_run :
    download_multiple_playlists [("u", Except.ok none)] true = ⟨[], 0, 0, 0, 0⟩ := rfl

/-- C6 (amended): with `maxVideos = m` (nonzero), if the rendered counts
stay below `m` for the first `t` scrolls, the loop stays alive through
them, and scroll `t` observes a count that meets or exceeds `m` within the
attempt cap, the loop stops right after that scroll; the final rendered
count is the count observed there, which is at least `m` but need not
equal it, since entries load in chunks (see
`discovery_max_videos_overshoot`); fewer than `m` entries can result only
when the loop stalls out or hits the cap before reaching `m`. -/
theorem discovery_stops_at_max_videos (counts : Nat → Nat) (m t : Nat)
    (hm : m ≠ 0)
    (hlow : ∀ i, i < t → counts i < m)
    (hhit : m ≤ counts t)
    (hcap : t < 100)
    (hlive : ∀ i, i ≤ t → (stepSeq counts i).no_change_count < 10) :
    scrollLoop counts (some m) = stepSeq counts (t + 1) ∧
    (scrollLoop counts (some m)).current_count = counts t ∧
    m ≤ (scrollLoop counts (some m)).current_count := by
  have h := scrollLoopAux_crossing counts m hm t 0 100 (by omega)
    (fun i h1 h2 => hlow i (by omega))
    (by simpa using hhit)
    (by omega)
    (fun i h1 h2 => hlive i (by omega))
  have he : scrollLoop counts (some m) = stepSeq counts (t + 1) := by
    unfold scrollLoop
    rw [show initScroll = stepSeq counts 0 from rfl]
    simpa using h
  refine ⟨he, ?_, ?_⟩
  · rw [he]; exact stepSeq_count counts t
  · rw [he, stepSeq_count counts t]; exact hhit

theorem discovery_stops_at_max_videos_witness :
    (scrollLoop (fun i => i + 1) (some 3)).current_count = 3 :=
  (discovery_stops_at_max_videos (fun i => i + 1) 3 2 (by decide)
    (by decide) (by decide) (by decide) (by decide)).2.1

/-- C6 counterexample: `maxVideos = 5` but the very first scroll renders 7
entries (content loads in chunks): the loop stops with 7 entries counted,
not exactly 5 and not fewer, and content had not ended (the no-change
streak is 0). -/
theorem discovery_max_videos_overshoot :
    (scrollLoop (fun _ => 7) (some 5)).current_count = 7 ∧
    ¬((scrollLoop (fun _ => 7) (some 5)).current_count ≤ 5) ∧
    (scrollLoop (fun _ => 7) (some 5)).no_change_count = 0 := by decide

/-- C7: `sort_order = "playlist"` leaves the discovered sequence in
discovery order exactly, while `"reverse"` and `"upload"` both produce the
exact reverse of discovery order — the identical transformation
(lines 356-363). -/
theorem sort_order_property (l : List VideoInfo) :
    applySort "playlist" l = l ∧
    applySort "reverse" l = l.reverse ∧
    applySort "upload" l = l.reverse ∧
    applySort "upload" l = applySort "reverse" l := by
  have h1 : ("playlist" : String) ≠ "upload" := by decide
  have h2 : ("playlist" : String) ≠ "reverse" := by decide
  have h3 : ("reverse" : String) ≠ "upload" := by decide
  refine ⟨?_, ?_, ?_, ?_⟩ <;> simp [applySort, h1, h2, h3]

/-- C8: with `continue_on_error = false`, if the fetch at sorted position
k (0-based) fails and no earlier fetch failed, the download loop stops
there: exactly k+1 videos are attempted (none after position k), the
failure counter is 1, and the success/skip counters reflect only the k
videos before the failure; a (partial) summary is still returned for any
nonempty video list. The claim's example — 5 videos with the third
failing — instantiates to 2 succeeded, 0 skipped, 1 failed, 3 attempted. -/
theorem stop_on_error_cutoff (outs : List FetchOutcome) (kk : Nat)
    (hlen : kk < outs.length)
    (hpre : ∀ i, i < kk → outs.get? i ≠ some FetchOutcome.failed)
    (hat : outs.get? kk = some FetchOutcome.failed) :
    (runLoopGo false 0 0 0 0 outs =
      ⟨countOutcome .ok (outs.take kk), countOutcome .skipped (outs.take kk),
       1, kk + 1⟩ ∧
     (runLoopGo false 0 0 0 0 outs).attempted = kk + 1) ∧
    ∀ (res : ExtractResult) (fetch : VideoInfo → FetchOutcome)
      (cfg : PlaylistConfig), res.videos ≠ [] →
      (download_playlist (some res) fetch cfg).isSome = true := by
  have h := runLoopGo_first_fail outs kk 0 0 0 0 hlen hpre hat
  have h' : runLoopGo false 0 0 0 0 outs =
      ⟨countOutcome .ok (outs.take kk), countOutcome .skipped (outs.take kk),
       1, kk + 1⟩ := by
    rw [h]
    simp
  refine ⟨⟨h', by rw [h']⟩, ?_⟩
  intro res fetch cfg hne
  have he : res.videos.isEmpty = false := by
    cases hv : res.videos with
    | nil => exact absurd hv hne
    | cons a t => rfl
  simp only [download_playlist, he, Bool.false_eq_true, if_false, Option.isSome_some]

theorem stop_on_error_cutoff_witness :
    runLoopGo false 0 0 0 0
      [FetchOutcome.ok, FetchOutcome.ok, FetchOutcome.failed,
       FetchOutcome.ok, FetchOutcome.ok] = ⟨2, 0, 1, 3⟩ :=
  (stop_on_error_cutoff
    [FetchOutcome.ok, FetchOutcome.ok, FetchOutcome.failed,
     FetchOutcome.ok, FetchOutcome.ok] 2
    (by decide) (by decide) (by decide)).1.1

/-- C9: over the sorted sequence of length N, each video's download index
is assigned (overwritten, whatever its previous value) to its 1-based
position, and the download-index values over the sorted sequence are
exactly — hence a permutation of — 1..N (lines 366-367). -/
theorem download_position_assignment (vs : List VideoInfo) :
    (assignFrom 1 vs).map (fun v => v.download_index) =
      (List.range' 1 vs.length).map some ∧
    (∀ i v, vs.get? i = some v →
      (assignFrom 1 vs).get? i = some { v with download_index := some (i + 1) }) ∧
    List.Perm ((assignFrom 1 vs).map (fun v => v.download_index))
      ((List.range' 1 vs.length).map some) := by
  refine ⟨assignFrom_map_index 1 vs, ?_, ?_⟩
  · intro i v h
    have := assignFrom_get? 1 vs i v h
    rw [show 1 + i = i + 1 from by omega] at this
    exact this
  · rw [assignFrom_map_index 1 vs]

theorem download_position_assignment_witness :
    (assignFrom 1 [(⟨"a", "ua", 1, none, none⟩ : VideoInfo),
                   ⟨"b", "ub", 2, none, none⟩]).get? 0 =
      some ⟨"a", "ua", 1, none, some 1⟩ :=
  (download_position_assignment
    [⟨"a", "ua", 1, none, none⟩, ⟨"b", "ub", 2, none, none⟩]).2.1 0
    ⟨"a", "ua", 1, none, none⟩ rfl

/-- C4 (amended): provided the sanitized base name contains no `[` (the
one glob metacharacter that survives sanitization — `*` and `?` are
always removed), the fetch behaves as claimed: if any file already exists
in the destination folder whose name is the sanitized base followed by a
dot and an extension, the fetch reports success-with-skip and the
download capability is not invoked, and starting from a folder with no
matching file a successful fetch followed by an identical fetch yields
Succeeded then SucceededSkipped with no second capability invocation.
For a base containing `[`, `Path.glob` treats `[seq]` as a character
class, the literal file written by the download is never matched, and the
program downloads again instead of skipping — see
`fetch_bracket_no_skip`, which refutes the claim as stated. -/
theorem fetch_skip_idempotence :
    (∀ (title : List Char) (files : List (List Char)) (cap : CapResult)
       (f rest : List Char),
       (∀ c ∈ sanitizeChars title, c ≠ '[') →
       f ∈ files → f = sanitizeChars title ++ '.' :: rest →
       (download_video_with_ytdlp title files cap).1 =
         (true, true, sanitizeChars title, none) ∧
       (download_video_with_ytdlp title files cap).2.1 = files ∧
       (download_video_with_ytdlp title files cap).2.2 = false) ∧
    (∀ (title : List Char) (files : List (List Char)) (ext : List Char)
       (cap2 : CapResult),
       (∀ c ∈ sanitizeChars title, c ≠ '[') →
       (∀ f ∈ files, globMatches (sanitizeChars title) f = false) →
       (download_video_with_ytdlp title files (.success ext)).1 =
         (true, false, sanitizeChars title, none) ∧
       (download_video_with_ytdlp title
          (download_video_with_ytdlp title files (.success ext)).2.1 cap2).1 =
         (true, true, sanitizeChars title, none) ∧
       (download_video_with_ytdlp title
          (download_video_with_ytdlp title files (.success ext)).2.1 cap2).2.2 =
         false) := by
  have hmeta : ∀ (title : List Char), (∀ c ∈ sanitizeChars title, c ≠ '[') →
      ∀ c ∈ sanitizeChars title, c ≠ '*' ∧ c ≠ '?' ∧ c ≠ '[' := by
    intro title hbr c hc
    exact ⟨(sanitizeChars_no_star_question title c hc).1,
           (sanitizeChars_no_star_question title c hc).2, hbr c hc⟩
  have hmatch : ∀ (title : List Char), (∀ c ∈ sanitizeChars title, c ≠ '[') →
      ∀ (rest : List Char),
      globMatches (sanitizeChars title) (sanitizeChars title ++ '.' :: rest) = true := by
    intro title hbr rest
    exact (globMatches_iff _ _ (hmeta title hbr)).mpr ⟨rest, rfl⟩
  constructor
  · intro title files cap f rest hbr hf heq
    have hany : files.any (fun g => globMatches (sanitizeChars title) g) = true :=
      List.any_eq_true.mpr ⟨f, hf, by rw [heq]; exact hmatch title hbr rest⟩
    refine ⟨?_, ?_, ?_⟩ <;> simp [download_video_with_ytdlp, hany]
  · intro title files ext cap2 hbr hnone
    have hany : files.any (fun g => globMatches (sanitizeChars title) g) = false := by
      rw [List.any_eq_false]
      intro f hf
      simp [hnone f hf]
    have e1 : download_video_with_ytdlp title files (.success ext) =
        ((true, false, sanitizeChars title, none),
         files ++ [sanitizeChars title ++ '.' :: ext], true) := by
      simp [download_video_with_ytdlp, hany]
    have hany2 : (files ++ [sanitizeChars title ++ '.' :: ext]).any
        (fun g => globMatches (sanitizeChars title) g) = true :=
      List.any_eq_true.mpr
        ⟨sanitizeChars title ++ '.' :: ext, by simp, hmatch title hbr ext⟩
    refine ⟨by rw [e1], ?_, ?_⟩ <;>
      rw [e1] <;> simp [download_video_with_ytdlp, hany2]

theorem fetch_skip_idempotence_witness :
    (download_video_with_ytdlp ['a'] [['a', '.', 'm']] (.failure ['e'])).2.2 =
      false ∧
    (download_video_with_ytdlp ['a']
       (download_video_with_ytdlp ['a'] [] (.success ['m', 'p', '4'])).2.1
       (.success ['m', 'p', '4'])).1 = (true, true, ['a'], none) :=
  ⟨(fetch_skip_idempotence.1 ['a'] [['a', '.', 'm']] (.failure ['e'])
      ['a', '.', 'm'] ['m'] (by decide) (by simp) (by decide)).2.2,
   (fetch_skip_idempotence.2 ['a'] [] ['m', 'p', '4'] (.success ['m', 'p', '4'])
      (by decide) (by simp)).2.1⟩

/-- C4 counterexample: the title `[b]` sanitizes to itself (brackets are
not among the removed characters), so a successful download writes the
literal file `[b].mp4`; but the skip check globs for `[b].*`, in which
`[b]` is a character class matching the single character `b`, so the
pre-existing file is never matched. With `[b].mp4` already in the folder
the fetch still invokes the capability (no skip, skipped flag false), and
running the fetch twice from an empty folder performs two real
downloads instead of Succeeded then SucceededSkipped. -/
theorem fetch_bracket_no_skip :
    (download_video_with_ytdlp ['[', 'b', ']']
        [['[', 'b', ']', '.', 'm', 'p', '4']] (.success ['m', 'p', '4'])).2.2 =
      true ∧
    (download_video_with_ytdlp ['[', 'b', ']']
        [['[', 'b', ']', '.', 'm', 'p', '4']] (.success ['m', 'p', '4'])).1.2.1 =
      false ∧
    (download_video_with_ytdlp ['[', 'b', ']']
        (download_video_with_ytdlp ['[', 'b', ']'] []
          (.success ['m', 'p', '4'])).2.1
        (.success ['m', 'p', '4'])).2.2 = true := by decide

/-- C5 (amended): for every input string, the sanitized output has length
at most 255 and contains none of the nine invalid filename characters;
and sanitizing is idempotent whenever the sanitized output does not end in
whitespace — which is always the case except when the 255-character
truncation cuts immediately after a space, where a second application
additionally strips that trailing space (see `sanitize_not_idempotent`
for such an input, so unrestricted idempotence fails). -/
theorem sanitize_properties (s : String) :
    (sanitize_filename s).length ≤ 255 ∧
    (∀ c ∈ (sanitize_filename s).data, invalidChar c = false) ∧
    (lastNotWS (sanitize_filename s).data = true →
      sanitize_filename (sanitize_filename s) = sanitize_filename s) := by
  refine ⟨sanitizeChars_length_le s.data, sanitizeChars_no_invalid s.data, ?_⟩
  intro h
  show String.mk (sanitizeChars (sanitizeChars s.data)) = String.mk (sanitizeChars s.data)
  rw [sanitizeChars_idem s.data h]

theorem sanitize_properties_witness :
    sanitize_filename (sanitize_filename "a b") = sanitize_filename "a b" :=
  (sanitize_properties "a b").2.2 (by decide)

set_option maxRecDepth 100000 in
/-- C5 counterexample: a 300-character title of repeated "ab " sanitizes
to a 255-character name whose last character is a space (the truncation
cuts right after one), so a second sanitization strips it and the result
differs: `sanitize(sanitize(x)) ≠ sanitize(x)`. -/
theorem sanitize_not_idempotent :
    sanitize_filename (sanitize_filename longTitle) ≠ sanitize_filename longTitle := by
  decide

/-- C10: `_extract_playlist_metadata` always returns a `PlaylistInfo`
whose `total_videos` field is 0 (line 285: "Will be updated later", but it
never is), and that value is carried unchanged into the run summary and
into the batch's success entry; the discovered count is exposed only
through the summary's separate `total_videos` field and the persisted
`playlist_info.json`, whose `total_videos` is the video-list length. -/
theorem metadata_video_count_zero (titleTexts channelTexts : List String)
    (listParam : Option String) (currentUrl : String) :
    (extract_playlist_metadata titleTexts channelTexts listParam
        currentUrl).total_videos = 0 ∧
    (∀ (pinfo : PlaylistInfo) (videos : List VideoInfo)
       (fetch : VideoInfo → FetchOutcome) (cfg : PlaylistConfig)
       (s : PlaylistSummary),
       download_playlist (some ⟨pinfo, videos⟩) fetch cfg = some s →
       s.playlist_info = pinfo ∧ s.total_videos = videos.length) ∧
    (∀ (cont : Bool) (url : String) (s : PlaylistSummary)
       (rest : List (String × Except String (Option PlaylistSummary))),
       (download_multiple_playlists ((url, Except.ok (some s)) :: rest)
           cont).results =
         BatchEntry.ok url s.playlist_info s.success_count s.skipped_count
           s.fail_count s.total_videos ::
           (download_multiple_playlists rest cont).results) ∧
    (∀ (pinfo : PlaylistInfo) (videos : List VideoInfo) (url so : String),
       (playlistMetadataFile pinfo videos url so).total_videos =
         videos.length) := by
  refine ⟨rfl, ?_, fun _ _ _ _ => rfl, fun _ _ _ _ => rfl⟩
  intro pinfo videos fetch cfg s h
  simp only [download_playlist] at h
  cases he : videos.isEmpty with
  | true => simp [he] at h
  | false =>
    simp only [he, Bool.false_eq_true, if_false, Option.some.injEq] at h
    subst h
    refine ⟨rfl, ?_⟩
    show (assignFrom 1 (applySort cfg.sort_order videos)).length = videos.length
    rw [assignFrom_length, applySort_length]

theorem metadata_video_count_zero_witness :
    (⟨⟨"T", "C", "U", 0⟩, 0, 1, 0, 1, "playlist"⟩ : PlaylistSummary).playlist_info =
      (⟨"T", "C", "U", 0⟩ : PlaylistInfo) ∧
    (⟨⟨"T", "C", "U", 0⟩, 0, 1, 0, 1, "playlist"⟩ : PlaylistSummary).total_videos =
      [(⟨"t", "u", 1, none, none⟩ : VideoInfo)].length :=
  (metadata_video_count_zero [] [] none "u").2.1 ⟨"T", "C", "U", 0⟩
    [⟨"t", "u", 1, none, none⟩] (fun _ => FetchOutcome.skipped) {}
    ⟨⟨"T", "C", "U", 0⟩, 0, 1, 0, 1, "playlist"⟩ (by decide)
